import Mathlib

/-!
Verification of the HEDGE-2 SCI board telemetry core, as a shallow embedding
of the Python sources:

* `src/lib/core/buffer.py` — the circular sample buffer and the record codec
  (`pad_list`, `Buffer.add_sample`, `Buffer.get_all`, `Buffer.get_latest`,
  `Buffer.is_full`, `Buffer.size`);
* `src/lib/comms/cli.py` — record decoding in `cmd_dump`, calibration editing
  (`cmd_cal_set`, `_update_cal`, `cmd_cal_reset`) and `cmd_self_test`;
* `src/lib/utils.py` — the integrity framer (`buffer_crc16`, `crc16`);
* `src/lib/core/housekeeping.py` — the absence-handling of housekeeping reads
  (`read_ina238_data`, `read_housekeeping_temperature`).

Modelling conventions:
* A byte is a `Nat` (values kept below 256 by construction).
* An encoded record (a Python `bytes` block) is a `List Nat`.
* An IEEE-754 single-precision measurement value is modelled by its 32-bit
  pattern (`Nat` below `2 ^ 32`): `struct.pack "<f"` moves the four bytes of
  that pattern, low byte first, and `struct.unpack` moves them back, so
  bit-for-bit identity of single-precision fields is identity of patterns.
* Calibration values (plain real numbers in the program) are modelled by `ℚ`;
  the self-test bound checks only compare them with rational constants.
-/

namespace HedgeSci

/-- Serialize a 32-bit word to four little-endian bytes, as `struct.pack`
does for the `I` and `f` fields of the record format (MicroPython's `pack`
reduces an oversized integer modulo `2 ^ 32`, which the byte extractions
below do implicitly). -/
def toLE4 (w : Nat) : List Nat :=
  [w % 256, w / 256 % 256, w / 65536 % 256, w / 16777216 % 256]

/-- Serialize a 16-bit word to two little-endian bytes, as
`int.to_bytes(2, "little")` does in `buffer_crc16`. -/
def toLE2 (w : Nat) : List Nat :=
  [w % 256, w / 256 % 256]

/-- Recombine a byte sequence into 32-bit little-endian words, as
`struct.unpack "<I4f4f4f6f6f6f6f"` does in `CLI.cmd_dump`. -/
def leWords : List Nat → List Nat
  | a :: b :: c :: d :: rest => (a + 256 * (b + 256 * (c + 256 * d))) :: leWords rest
  | _ => []

/-- `pad_list` from `src/lib/core/buffer.py`: `None` becomes `length` copies
of the fill value, a too-long list is truncated, a too-short list is padded
with the fill value.  The source's default fill `0.0` (single-precision
pattern `0`) is passed explicitly at every call site. -/
def pad_list (values : Option (List Nat)) (length : Nat) (fill : Nat) : List Nat :=
  match values with
  | none => List.replicate length fill
  | some v => if length ≤ v.length then v.take length else v ++ List.replicate (length - v.length) fill

/-- One decoded telemetry sample: the field groups of the canonical record
format `<I4f4f4f6f6f6f6f` of `Buffer.add_sample`.  Measurement entries are
32-bit single-precision patterns. -/
structure SampleRecord where
  timestamp : Nat
  temperatures : List Nat
  pressures : List Nat
  hk_temps : List Nat
  hk_voltages : List Nat
  hk_currents : List Nat
  hk_powers : List Nat
  hk_ina_temps : List Nat
deriving Repr, DecidableEq

/-- The 36 measurement fields of a record, in the order of the pack format. -/
def fieldsOf (r : SampleRecord) : List Nat :=
  r.temperatures ++ r.pressures ++ r.hk_temps ++
    r.hk_voltages ++ r.hk_currents ++ r.hk_powers ++ r.hk_ina_temps

/-- `struct.pack "<I4f4f4f6f6f6f6f"` in `Buffer.add_sample`: the timestamp as
an unsigned little-endian 32-bit integer followed by the 36 measurement
fields, four little-endian bytes each. -/
def packRecord (r : SampleRecord) : List Nat :=
  toLE4 r.timestamp ++ ((fieldsOf r).map toLE4).flatten

/-- The optional keyword arguments of `Buffer.add_sample`. -/
structure SampleArgs where
  timestamp : Option Nat := none
  temperatures : Option (List Nat) := none
  pressures : Option (List Nat) := none
  hk_temps : Option (List Nat) := none
  hk_voltages : Option (List Nat) := none
  hk_currents : Option (List Nat) := none
  hk_powers : Option (List Nat) := none
  hk_ina_temps : Option (List Nat) := none
deriving Repr, DecidableEq

/-- The padding stage of `Buffer.add_sample`: a missing timestamp is replaced
by `time.ticks_ms() & 0xFFFFFFFF` (the ambient tick count is the `now`
argument), and every channel group is brought to its fixed count by
`pad_list`. -/
def sampleRecordOf (now : Nat) (a : SampleArgs) : SampleRecord where
  timestamp := a.timestamp.getD (now % 4294967296)
  temperatures := pad_list a.temperatures 4 0
  pressures := pad_list a.pressures 4 0
  hk_temps := pad_list a.hk_temps 4 0
  hk_voltages := pad_list a.hk_voltages 6 0
  hk_currents := pad_list a.hk_currents 6 0
  hk_powers := pad_list a.hk_powers 6 0
  hk_ina_temps := pad_list a.hk_ina_temps 6 0

/-- The `Buffer` class of `src/lib/core/buffer.py`: a fixed array of encoded
records, a write cursor and a count. -/
structure Buffer where
  capacity : Nat
  buffer : List (List Nat)
  write_index : Nat
  count : Nat
deriving Repr, DecidableEq

/-- `Buffer.__init__`: `capacity` empty byte blocks, cursor and count zero. -/
def Buffer.init (capacity : Nat) : Buffer where
  capacity := capacity
  buffer := List.replicate capacity []
  write_index := 0
  count := 0

/-- The storage step of `Buffer.add_sample`: write the packed record at
`write_index`, advance the cursor modulo the capacity, increment the count
up to the capacity. -/
def Buffer.addPacked (b : Buffer) (packed : List Nat) : Buffer where
  capacity := b.capacity
  buffer := b.buffer.set b.write_index packed
  write_index := (b.write_index + 1) % b.capacity
  count := if b.count < b.capacity then b.count + 1 else b.count

/-- `Buffer.add_sample`: pad the arguments, pack them, store the block, and
return `True`. -/
def Buffer.add_sample (b : Buffer) (now : Nat) (a : SampleArgs) : Buffer × Bool :=
  (b.addPacked (packRecord (sampleRecordOf now a)), true)

/-- `Buffer.get_all`: empty list when the count is zero, the prefix of length
`count` when not yet full, otherwise the rotation starting at `write_index`. -/
def Buffer.get_all (b : Buffer) : List (List Nat) :=
  if b.count = 0 then []
  else if b.count < b.capacity then b.buffer.take b.count
  else b.buffer.drop b.write_index ++ b.buffer.take b.write_index

/-- `Buffer.get_latest`: `None` when empty, otherwise the slot at
`(write_index - 1) % capacity` (Python's `%` on a negative left operand and
positive modulus is `Int.emod`). -/
def Buffer.get_latest (b : Buffer) : Option (List Nat) :=
  if b.count = 0 then none
  else some (b.buffer.getD ((((b.write_index : Int) - 1) % (b.capacity : Int)).toNat) [])

/-- `Buffer.clear`. -/
def Buffer.clear (b : Buffer) : Buffer where
  capacity := b.capacity
  buffer := b.buffer
  write_index := 0
  count := 0

/-- `Buffer.is_full`. -/
def Buffer.is_full (b : Buffer) : Bool :=
  decide (b.capacity ≤ b.count)

/-- `Buffer.size`. -/
def Buffer.size (b : Buffer) : Nat :=
  b.count

/-- Fold `add_sample` over a list of argument tuples, keeping the states. -/
def pushAll (b : Buffer) (now : Nat) (args : List SampleArgs) : Buffer :=
  args.foldl (fun s a => (s.add_sample now a).1) b

/-- The decoder of `CLI.cmd_dump`: MicroPython's `struct.unpack` (the only
runtime of this `machine`-importing firmware) is the same routine as
`unpack_from` and raises only when the buffer is smaller than the 148-byte
format size, so a longer block is decoded from its 148-byte prefix; on
success the words are sliced into the field groups exactly as `cmd_dump`
slices `unpacked`. -/
def decodeRecord (bs : List Nat) : Option SampleRecord :=
  if 148 ≤ bs.length then
    let u := leWords bs
    some
      { timestamp := u.getD 0 0
        temperatures := (u.drop 1).take 4
        pressures := (u.drop 5).take 4
        hk_temps := (u.drop 9).take 4
        hk_voltages := (u.drop 13).take 6
        hk_currents := (u.drop 19).take 6
        hk_powers := (u.drop 25).take 6
        hk_ina_temps := (u.drop 31).take 6 }
  else none

/-- The records `CLI.cmd_dump` successfully presents, in order: an empty
block is skipped, a block `struct.unpack` rejects is reported and skipped,
and the dump continues with the remaining records. -/
def dumpRecords (samples : List (List Nat)) : List SampleRecord :=
  samples.filterMap decodeRecord

/-- One shift iteration of `crc16` from `src/lib/utils.py`. -/
def crc16_shift (poly crc : Nat) : Nat :=
  if crc % 2 = 1 then (crc / 2) ^^^ poly else crc / 2

/-- The per-byte step of `crc16`: fold the byte in, then shift eight times. -/
def crc16_byte (poly crc byte : Nat) : Nat :=
  (crc16_shift poly)^[8] (crc ^^^ byte)

/-- `crc16` from `src/lib/utils.py`; the source's default arguments are
`poly = 0xA001` and `initial = 0xFFFF`. -/
def crc16 (data : List Nat) (poly : Nat) (initial : Nat) : Nat :=
  (data.foldl (crc16_byte poly) initial) &&& 0xFFFF

/-- `buffer_crc16` from `src/lib/utils.py`: `None` for an empty list,
otherwise the concatenation of the blocks followed by the two little-endian
bytes of their CRC-16 (with the source's default polynomial and seed). -/
def buffer_crc16 (buffer_data : List (List Nat)) : Option (List Nat) :=
  if buffer_data = [] then none
  else
    let combined := buffer_data.flatten
    let crc := crc16 combined 0xA001 0xFFFF
    some (combined ++ toLE2 crc)


/-- Not-yet-full buffers present their slots `[0, count)` in order. -/
theorem get_all_not_full (b : Buffer) (hcnt : b.count < b.capacity) :
    b.get_all = b.buffer.take b.count := by
  rcases Nat.eq_zero_or_pos b.count with h0 | hpos
  · rw [Buffer.get_all, if_pos h0, h0, List.take_zero]
  · rw [Buffer.get_all, if_neg (by omega), if_pos hcnt]

/-- Storing a block in a buffer that is not yet full appends it to the
snapshot. -/
theorem addPacked_get_all_of_not_full (b : Buffer) (x : List Nat)
    (hl : b.buffer.length = b.capacity) (hcnt : b.count < b.capacity)
    (hwx : b.write_index = b.count) :
    (b.addPacked x).get_all = b.get_all ++ [x] := by
  have hcap2 : (b.addPacked x).capacity = b.capacity := rfl
  have hbuf2 : (b.addPacked x).buffer = b.buffer.set b.write_index x := rfl
  have hcount2 : (b.addPacked x).count = b.count + 1 := by
    simp only [Buffer.addPacked, if_pos hcnt]
  have hset : b.buffer.set b.count x
      = b.buffer.take b.count ++ x :: b.buffer.drop (b.count + 1) := by
    rw [List.set_eq_take_append_cons_drop, if_pos (by omega)]
  have htake : (b.buffer.set b.count x).take (b.count + 1)
      = b.buffer.take b.count ++ [x] := by
    rw [hset, List.take_append_eq_append_take,
      List.take_of_length_le (by rw [List.length_take]; omega), List.length_take]
    have h1 : b.count + 1 - min b.count b.buffer.length = 1 := by omega
    rw [h1]
    simp
  rw [get_all_not_full b hcnt]
  rcases Nat.lt_or_ge (b.count + 1) b.capacity with hlt2 | hge2
  · rw [get_all_not_full (b.addPacked x) (by rw [hcount2, hcap2]; omega),
      hcount2, hbuf2, hwx, htake]
  · have heq : b.count + 1 = b.capacity := by omega
    have hw0 : (b.addPacked x).write_index = 0 := by
      simp only [Buffer.addPacked, hwx, heq, Nat.mod_self]
    rw [Buffer.get_all, if_neg (by rw [hcount2]; omega),
      if_neg (by rw [hcount2, hcap2]; omega),
      hw0, List.drop_zero, List.take_zero, List.append_nil, hbuf2, hwx, hset]
    have hdrop : b.buffer.drop (b.count + 1) = [] := by
      rw [heq, ← hl, List.drop_length]
    rw [hdrop]

/-- Storing a block in a full buffer drops the oldest element of the snapshot
and appends the new block. -/
theorem addPacked_get_all_of_full (b : Buffer) (x : List Nat)
    (hl : b.buffer.length = b.capacity) (hcnt : b.count = b.capacity)
    (hN : 0 < b.capacity) (hwlt : b.write_index < b.capacity) :
    (b.addPacked x).get_all = b.get_all.drop 1 ++ [x] := by
  have hcap2 : (b.addPacked x).capacity = b.capacity := rfl
  have hbuf2 : (b.addPacked x).buffer = b.buffer.set b.write_index x := rfl
  have hcount2 : (b.addPacked x).count = b.capacity := by
    simp only [Buffer.addPacked, if_neg (by omega : ¬ b.count < b.capacity)]
    omega
  have hset : b.buffer.set b.write_index x
      = b.buffer.take b.write_index ++ x :: b.buffer.drop (b.write_index + 1) := by
    rw [List.set_eq_take_append_cons_drop, if_pos (by omega)]
  have hgab : b.get_all = b.buffer.drop b.write_index ++ b.buffer.take b.write_index := by
    rw [Buffer.get_all, if_neg (by omega), if_neg (by omega)]
  have hrhs : b.get_all.drop 1 ++ [x]
      = b.buffer.drop (b.write_index + 1) ++ (b.buffer.take b.write_index ++ [x]) := by
    rw [hgab, List.drop_append_of_le_length (by rw [List.length_drop]; omega),
      List.drop_drop, List.append_assoc]
  rw [hrhs, Buffer.get_all, if_neg (by rw [hcount2]; omega),
    if_neg (by rw [hcount2, hcap2]; omega)]
  rcases Nat.lt_or_ge (b.write_index + 1) b.capacity with hlt2 | hge2
  · have hw2 : (b.addPacked x).write_index = b.write_index + 1 := by
      simp only [Buffer.addPacked]
      exact Nat.mod_eq_of_lt hlt2
    have hdrop2 : (b.buffer.set b.write_index x).drop (b.write_index + 1)
        = b.buffer.drop (b.write_index + 1) :=
      List.drop_set_of_lt _ _ (by omega)
    have htake2 : (b.buffer.set b.write_index x).take (b.write_index + 1)
        = b.buffer.take b.write_index ++ [x] := by
      rw [hset, List.take_append_eq_append_take,
        List.take_of_length_le (by rw [List.length_take]; omega), List.length_take]
      have h1 : b.write_index + 1 - min b.write_index b.buffer.length = 1 := by omega
      rw [h1]
      simp
    rw [hw2, hbuf2, hdrop2, htake2]
  · have heq : b.write_index + 1 = b.capacity := by omega
    have hw0 : (b.addPacked x).write_index = 0 := by
      simp only [Buffer.addPacked, heq, Nat.mod_self]
    have hdropful : b.buffer.drop (b.write_index + 1) = [] := by
      rw [heq, ← hl, List.drop_length]
    rw [hw0, List.drop_zero, List.take_zero, List.append_nil, hbuf2, hset, hdropful]
    simp

/-- After storing a block, `get_latest` returns exactly that block. -/
theorem addPacked_get_latest (b : Buffer) (x : List Nat)
    (hl : b.buffer.length = b.capacity)
    (hN : 0 < b.capacity) (hwlt : b.write_index < b.capacity) :
    (b.addPacked x).get_latest = some x := by
  have hcap2 : (b.addPacked x).capacity = b.capacity := rfl
  have hbuf2 : (b.addPacked x).buffer = b.buffer.set b.write_index x := rfl
  have hcnt2 : (b.addPacked x).count ≠ 0 := by
    simp only [Buffer.addPacked]; split <;> omega
  rw [Buffer.get_latest, if_neg hcnt2, hcap2, hbuf2]
  have hidx : ((((b.addPacked x).write_index : Int) - 1) % (b.capacity : Int)).toNat
      = b.write_index := by
    rcases Nat.lt_or_ge (b.write_index + 1) b.capacity with hlt2 | hge2
    · have hw2 : (b.addPacked x).write_index = b.write_index + 1 := by
        simp only [Buffer.addPacked]
        exact Nat.mod_eq_of_lt hlt2
      rw [hw2]
      have h1 : ((b.write_index + 1 : Nat) : Int) - 1 = (b.write_index : Int) := by
        push_cast; ring
      rw [h1, Int.emod_eq_of_lt (Int.natCast_nonneg _) (by exact_mod_cast hwlt)]
      simp
    · have heq : b.write_index + 1 = b.capacity := by omega
      have hw0 : (b.addPacked x).write_index = 0 := by
        simp only [Buffer.addPacked, heq, Nat.mod_self]
      rw [hw0]
      have h1 : (((0 : Nat) : Int)) - 1 = -1 := by simp
      rw [h1]
      have h2 : (-1 : Int) % (b.capacity : Int) = (b.capacity : Int) - 1 := by
        have h3 : (-1 : Int) = ((b.capacity : Int) - 1) + (b.capacity : Int) * (-1) := by ring
        rw [h3, Int.add_mul_emod_self_left, Int.emod_eq_of_lt (by omega) (by omega)]
      rw [h2]
      omega
  rw [hidx, List.getD_eq_getElem?_getD, List.getElem?_set_self (by omega)]
  rfl


/-- Build a buffer by folding the storage step of `add_sample` over a list of
packed blocks, starting from a fresh buffer. -/
def buildBuf (N : Nat) (xs : List (List Nat)) : Buffer :=
  xs.foldl Buffer.addPacked (Buffer.init N)

/-- Master characterization of the circular buffer: after storing the blocks
`xs` into a fresh buffer of positive capacity `N`, the count is
`min xs.length N`, the cursor is `xs.length % N`, `get_all` is the suffix of
the last `min xs.length N` blocks in storage order, and `get_latest` is the
last stored block. -/
theorem buildBuf_spec (N : Nat) (hN : 0 < N) (xs : List (List Nat)) :
    (buildBuf N xs).capacity = N ∧
    (buildBuf N xs).buffer.length = N ∧
    (buildBuf N xs).count = min xs.length N ∧
    (buildBuf N xs).write_index = xs.length % N ∧
    (buildBuf N xs).get_all = xs.drop (xs.length - N) ∧
    (buildBuf N xs).get_latest = (xs.map some).getLastD none := by
  induction xs using List.reverseRecOn with
  | nil =>
      refine ⟨rfl, by simp [buildBuf, Buffer.init], by simp [buildBuf, Buffer.init],
        by simp [buildBuf, Buffer.init], ?_, ?_⟩
      · simp [buildBuf, Buffer.init, Buffer.get_all]
      · simp [buildBuf, Buffer.init, Buffer.get_latest]
  | append_singleton xs x ih =>
      obtain ⟨hc, hl, hcount, hw, hall, -⟩ := ih
      have hbuild : buildBuf N (xs ++ [x]) = (buildBuf N xs).addPacked x := by
        simp [buildBuf]
      set b := buildBuf N xs with hb
      have hwlt : b.write_index < N := by rw [hw]; exact Nat.mod_lt _ hN
      have hl' : b.buffer.length = b.capacity := by rw [hl, hc]
      rw [hbuild]
      have hcap2 : (b.addPacked x).capacity = N := hc
      have hlen2 : (b.addPacked x).buffer.length = N := by
        have : (b.addPacked x).buffer = b.buffer.set b.write_index x := rfl
        rw [this, List.length_set, hl]
      have hcount2 : (b.addPacked x).count = min (xs ++ [x]).length N := by
        simp only [Buffer.addPacked, hc, hcount, List.length_append,
          List.length_singleton]
        split <;> omega
      have hw2 : (b.addPacked x).write_index = (xs ++ [x]).length % N := by
        simp only [Buffer.addPacked, hc, hw, List.length_append, List.length_singleton]
        rw [Nat.mod_add_mod]
      refine ⟨hcap2, hlen2, hcount2, hw2, ?_, ?_⟩
      · rcases Nat.lt_or_ge xs.length N with hlt | hge
        · have hstep := addPacked_get_all_of_not_full b x hl'
            (by rw [hcount, hc]; omega)
            (by rw [hw, hcount, Nat.mod_eq_of_lt hlt]; omega)
          rw [hstep, hall, Nat.sub_eq_zero_of_le (Nat.le_of_lt hlt), List.drop_zero]
          have h2 : (xs ++ [x]).length - N = 0 := by simp; omega
          rw [h2, List.drop_zero]
        · have hstep := addPacked_get_all_of_full b x hl'
            (by rw [hcount, hc]; omega) (by rw [hc]; omega) (by rw [hc]; omega)
          rw [hstep, hall, List.drop_drop]
          have h2 : (xs ++ [x]).length - N = (xs.length - N) + 1 := by simp; omega
          rw [h2, List.drop_append_of_le_length (by omega)]
      · rw [addPacked_get_latest b x hl' (by rw [hc]; omega) (by rw [hc]; omega)]
        simp

/-- Pushing records with `add_sample` is folding the storage step over the
packed encodings. -/
theorem pushAll_eq_buildBuf (N now : Nat) (args : List SampleArgs) :
    pushAll (Buffer.init N) now args
      = buildBuf N (args.map (fun a => packRecord (sampleRecordOf now a))) := by
  rw [buildBuf, List.foldl_map]
  rfl

/-- C1: for every buffer of capacity `N > 0` and every sequence of `N + k`
pushes (`k ≥ 1`), `get_all` returns exactly the last `N` pushed records,
oldest first, `get_latest` returns the very last pushed record, and the
snapshot of an empty buffer is the empty sequence. -/
theorem C1_snapshot_and_latest (N k now : Nat) (args : List SampleArgs)
    (hN : 0 < N) (hk : 1 ≤ k) (hlen : args.length = N + k) :
    (pushAll (Buffer.init N) now args).get_all
      = (args.map (fun a => packRecord (sampleRecordOf now a))).drop k ∧
    (pushAll (Buffer.init N) now args).get_latest
      = some ((args.map (fun a => packRecord (sampleRecordOf now a))).getLastD []) ∧
    (Buffer.init N).get_all = [] := by
  set xs := args.map (fun a => packRecord (sampleRecordOf now a)) with hxs
  have hxlen : xs.length = N + k := by rw [hxs, List.length_map, hlen]
  obtain ⟨-, -, -, -, hall, hlast⟩ := buildBuf_spec N hN xs
  refine ⟨?_, ?_, by simp [Buffer.init, Buffer.get_all]⟩
  · rw [pushAll_eq_buildBuf, ← hxs, hall, hxlen]
    congr 1
    omega
  · rw [pushAll_eq_buildBuf, ← hxs, hlast]
    rcases List.eq_nil_or_concat xs with h0 | ⟨ys, y, hcat⟩
    · rw [h0] at hxlen
      simp at hxlen
      omega
    · rw [hcat]
      simp


/-- Arguments carrying only a timestamp, as in the concrete spec scenario. -/
def tsArgs (n : Nat) : SampleArgs :=
  { timestamp := some n }

set_option maxRecDepth 4000 in
theorem C1_snapshot_and_latest_witness :
    (pushAll (Buffer.init 3) 0 [tsArgs 1, tsArgs 2, tsArgs 3, tsArgs 4]).get_all
      = [packRecord (sampleRecordOf 0 (tsArgs 2)), packRecord (sampleRecordOf 0 (tsArgs 3)),
          packRecord (sampleRecordOf 0 (tsArgs 4))] ∧
    (pushAll (Buffer.init 3) 0 [tsArgs 1, tsArgs 2, tsArgs 3, tsArgs 4]).get_latest
      = some (packRecord (sampleRecordOf 0 (tsArgs 4))) ∧
    ((pushAll (Buffer.init 3) 0 [tsArgs 1, tsArgs 2, tsArgs 3, tsArgs 4]).get_all.map
        (fun s => (decodeRecord s).map SampleRecord.timestamp))
      = [some 2, some 3, some 4] := by
  obtain ⟨h1, h2, -⟩ := C1_snapshot_and_latest 3 1 0
    [tsArgs 1, tsArgs 2, tsArgs 3, tsArgs 4] (by decide) (by decide) (by decide)
  refine ⟨?_, ?_, ?_⟩
  · rw [h1]; decide
  · rw [h2]; decide
  · rw [h1]; decide

/-- C2: every `add_sample` returns `True`, stores the packed record at the
write cursor and advances the cursor by one modulo the capacity; after any
sequence of pushes into a fresh buffer of positive capacity, `size()` is
`min(pushes, capacity)` and `is_full()` holds exactly when the number of
pushes reached the capacity. -/
theorem C2_push_accounting (N now : Nat) (args : List SampleArgs) (hN : 0 < N) :
    (∀ (b : Buffer) (a : SampleArgs),
        (b.add_sample now a).2 = true ∧
        (b.add_sample now a).1.buffer
          = b.buffer.set b.write_index (packRecord (sampleRecordOf now a)) ∧
        (b.add_sample now a).1.write_index = (b.write_index + 1) % b.capacity) ∧
    (pushAll (Buffer.init N) now args).size = min args.length N ∧
    ((pushAll (Buffer.init N) now args).is_full = true ↔ N ≤ args.length) ∧
    (pushAll (Buffer.init N) now args).write_index = args.length % N := by
  set xs := args.map (fun a => packRecord (sampleRecordOf now a)) with hxs
  have hxlen : xs.length = args.length := by rw [hxs, List.length_map]
  obtain ⟨hc, -, hcount, hw, -, -⟩ := buildBuf_spec N hN xs
  refine ⟨fun b a => ⟨rfl, rfl, rfl⟩, ?_, ?_, ?_⟩
  · rw [pushAll_eq_buildBuf, ← hxs, Buffer.size, hcount, hxlen]
  · rw [pushAll_eq_buildBuf, ← hxs, Buffer.is_full, hc, hcount, hxlen,
      decide_eq_true_iff]
    omega
  · rw [pushAll_eq_buildBuf, ← hxs, hw, hxlen]

theorem C2_push_accounting_witness :
    (pushAll (Buffer.init 2) 0 [tsArgs 1, tsArgs 2, tsArgs 3]).size = 2 ∧
    (pushAll (Buffer.init 2) 0 [tsArgs 1, tsArgs 2, tsArgs 3]).is_full = true ∧
    (pushAll (Buffer.init 2) 0 [tsArgs 1]).size = 1 ∧
    (pushAll (Buffer.init 2) 0 [tsArgs 1]).is_full = false ∧
    ((Buffer.init 2).add_sample 0 (tsArgs 1)).2 = true := by
  obtain ⟨hstep, hsize, hfull, -⟩ := C2_push_accounting 2 0 [tsArgs 1, tsArgs 2, tsArgs 3] (by decide)
  obtain ⟨-, hsize1, hfull1, -⟩ := C2_push_accounting 2 0 [tsArgs 1] (by decide)
  refine ⟨by rw [hsize]; decide, hfull.mpr (by decide), by rw [hsize1]; decide, ?_,
    (hstep (Buffer.init 2) (tsArgs 1)).1⟩
  have h2 : ¬ ((2 : Nat) ≤ [tsArgs 1].length) := by decide
  exact Bool.eq_false_iff.mpr (fun ht => h2 (hfull1.mp ht))

/-- Four little-endian bytes recombine to the word reduced modulo `2 ^ 32`. -/
theorem leWords_toLE4_append (w : Nat) (bs : List Nat) :
    leWords (toLE4 w ++ bs) = (w % 4294967296) :: leWords bs := by
  show leWords (w % 256 :: (w / 256 % 256) :: (w / 65536 % 256) :: (w / 16777216 % 256) :: bs)
      = (w % 4294967296) :: leWords bs
  rw [leWords]
  congr 1
  omega

/-- Recombining the concatenation of serialized words followed by any tail
recovers the words modulo `2 ^ 32` and then recombines the tail. -/
theorem leWords_flatten_append (l rest : List Nat) :
    leWords ((l.map toLE4).flatten ++ rest)
      = l.map (fun w => w % 4294967296) ++ leWords rest := by
  induction l with
  | nil => rfl
  | cons w l ih =>
      rw [List.map_cons, List.flatten_cons, List.append_assoc, leWords_toLE4_append, ih,
        List.map_cons, List.cons_append]

/-- Recombining a packed record followed by any trailing bytes gives the
timestamp, the 36 measurement fields (each modulo `2 ^ 32`), then the words
of the tail. -/
theorem leWords_packRecord_append (r : SampleRecord) (extra : List Nat) :
    leWords (packRecord r ++ extra)
      = (r.timestamp % 4294967296)
        :: ((fieldsOf r).map (fun w => w % 4294967296) ++ leWords extra) := by
  rw [packRecord, List.append_assoc, leWords_toLE4_append, leWords_flatten_append]

theorem length_flatten_toLE4 (l : List Nat) :
    ((l.map toLE4).flatten).length = 4 * l.length := by
  induction l with
  | nil => rfl
  | cons w l ih => simp [toLE4, ih]; omega

/-- A packed record is 4 bytes of timestamp plus 4 bytes per field. -/
theorem length_packRecord (r : SampleRecord) :
    (packRecord r).length = 4 + 4 * (fieldsOf r).length := by
  rw [packRecord, List.length_append, length_flatten_toLE4]
  rfl

/-- A record whose group lengths match the canonical counts and whose words
are 32-bit values; exactly the records `add_sample` can produce and the wire
format can carry. -/
def ValidRecord (r : SampleRecord) : Prop :=
  r.timestamp < 4294967296 ∧
  r.temperatures.length = 4 ∧ r.pressures.length = 4 ∧ r.hk_temps.length = 4 ∧
  r.hk_voltages.length = 6 ∧ r.hk_currents.length = 6 ∧ r.hk_powers.length = 6 ∧
  r.hk_ina_temps.length = 6 ∧ ∀ w ∈ fieldsOf r, w < 4294967296

instance (r : SampleRecord) : Decidable (ValidRecord r) := by
  unfold ValidRecord
  infer_instance

/-- Decoding a packed valid record followed by arbitrary trailing bytes
recovers exactly the record: the decoder reads only the 148-byte prefix. -/
theorem decodeRecord_prefix (r : SampleRecord) (extra : List Nat)
    (hv : ValidRecord r) :
    decodeRecord (packRecord r ++ extra) = some r := by
  obtain ⟨hts, h1, h2, h3, h4, h5, h6, h7, hw⟩ := hv
  have hflen : (fieldsOf r).length = 36 := by
    rw [fieldsOf]; simp [h1, h2, h3, h4, h5, h6, h7]
  have hlen : 148 ≤ (packRecord r ++ extra).length := by
    rw [List.length_append, length_packRecord, hflen]
    omega
  have hmap : (fieldsOf r).map (fun w => w % 4294967296) = fieldsOf r := by
    conv_rhs => rw [← List.map_id (fieldsOf r)]
    exact List.map_congr_left fun w hwm => Nat.mod_eq_of_lt (hw w hwm)
  set ew := leWords extra with hew
  have e0 : fieldsOf r ++ ew
      = r.temperatures ++ (r.pressures ++ (r.hk_temps ++ (r.hk_voltages ++
          (r.hk_currents ++ (r.hk_powers ++ (r.hk_ina_temps ++ ew)))))) := by
    rw [fieldsOf]; simp [List.append_assoc]
  have d4 : (fieldsOf r ++ ew).drop 4
      = r.pressures ++ (r.hk_temps ++ (r.hk_voltages ++
          (r.hk_currents ++ (r.hk_powers ++ (r.hk_ina_temps ++ ew))))) := by
    rw [e0]; exact List.drop_left' h1
  have d8 : (fieldsOf r ++ ew).drop 8
      = r.hk_temps ++ (r.hk_voltages ++
          (r.hk_currents ++ (r.hk_powers ++ (r.hk_ina_temps ++ ew)))) := by
    have h : (fieldsOf r ++ ew).drop 8 = ((fieldsOf r ++ ew).drop 4).drop 4 := by
      rw [List.drop_drop]
    rw [h, d4]; exact List.drop_left' h2
  have d12 : (fieldsOf r ++ ew).drop 12
      = r.hk_voltages ++ (r.hk_currents ++ (r.hk_powers ++ (r.hk_ina_temps ++ ew))) := by
    have h : (fieldsOf r ++ ew).drop 12 = ((fieldsOf r ++ ew).drop 8).drop 4 := by
      rw [List.drop_drop]
    rw [h, d8]; exact List.drop_left' h3
  have d18 : (fieldsOf r ++ ew).drop 18
      = r.hk_currents ++ (r.hk_powers ++ (r.hk_ina_temps ++ ew)) := by
    have h : (fieldsOf r ++ ew).drop 18 = ((fieldsOf r ++ ew).drop 12).drop 6 := by
      rw [List.drop_drop]
    rw [h, d12]; exact List.drop_left' h4
  have d24 : (fieldsOf r ++ ew).drop 24 = r.hk_powers ++ (r.hk_ina_temps ++ ew) := by
    have h : (fieldsOf r ++ ew).drop 24 = ((fieldsOf r ++ ew).drop 18).drop 6 := by
      rw [List.drop_drop]
    rw [h, d18]; exact List.drop_left' h5
  have d30 : (fieldsOf r ++ ew).drop 30 = r.hk_ina_temps ++ ew := by
    have h : (fieldsOf r ++ ew).drop 30 = ((fieldsOf r ++ ew).drop 24).drop 6 := by
      rw [List.drop_drop]
    rw [h, d24]; exact List.drop_left' h6
  rw [decodeRecord.eq_def, if_pos hlen, leWords_packRecord_append,
    Nat.mod_eq_of_lt hts, hmap, ← hew]
  have u1 : ∀ z : List Nat, (r.timestamp :: z).drop 1 = z := fun z => rfl
  have u5 : ∀ z : List Nat, (r.timestamp :: z).drop 5 = z.drop 4 := fun z => rfl
  have u9 : ∀ z : List Nat, (r.timestamp :: z).drop 9 = z.drop 8 := fun z => rfl
  have u13 : ∀ z : List Nat, (r.timestamp :: z).drop 13 = z.drop 12 := fun z => rfl
  have u19 : ∀ z : List Nat, (r.timestamp :: z).drop 19 = z.drop 18 := fun z => rfl
  have u25 : ∀ z : List Nat, (r.timestamp :: z).drop 25 = z.drop 24 := fun z => rfl
  have u31 : ∀ z : List Nat, (r.timestamp :: z).drop 31 = z.drop 30 := fun z => rfl
  simp only [u1, u5, u9, u13, u19, u25, u31, d4, d8, d12, d18, d24, d30]
  obtain ⟨ts, t, p, hkt, v, c, pw, it⟩ := r
  congr 1
  simp only [SampleRecord.mk.injEq]
  refine ⟨rfl, ?_, ?_, ?_, ?_, ?_, ?_, ?_⟩
  · rw [e0]; exact List.take_left' h1
  · exact List.take_left' h2
  · exact List.take_left' h3
  · exact List.take_left' h4
  · exact List.take_left' h5
  · exact List.take_left' h6
  · exact List.take_left' h7

/-- C3: decoding the encoded 148-byte block of a valid record yields the
record back bit-for-bit: the timestamp exactly and every measurement field
with the same single-precision pattern that was encoded. -/
theorem C3_roundtrip (r : SampleRecord) (hv : ValidRecord r) :
    decodeRecord (packRecord r) = some r := by
  have h := decodeRecord_prefix r [] hv
  simpa using h

/-- A concrete valid record exercising every field group. -/
def sampleRec : SampleRecord where
  timestamp := 305419896
  temperatures := [1, 2, 3, 4]
  pressures := [5, 6, 7, 8]
  hk_temps := [9, 10, 11, 12]
  hk_voltages := [13, 14, 15, 16, 17, 18]
  hk_currents := [19, 20, 21, 22, 23, 24]
  hk_powers := [25, 26, 27, 28, 29, 30]
  hk_ina_temps := [31, 32, 33, 4294967295, 0, 36]

set_option maxRecDepth 4000 in
theorem C3_roundtrip_witness :
    ValidRecord sampleRec ∧ decodeRecord (packRecord sampleRec) = some sampleRec :=
  ⟨by decide, C3_roundtrip sampleRec (by decide)⟩

set_option maxRecDepth 4000 in
/-- C4 as the spec states it is false for oversized blocks: this 152-byte
block does not have the canonical length, yet the decoder does not fail —
MicroPython's `struct.unpack` decodes the record in the 148-byte prefix, and
`cmd_dump` prints it rather than discarding it. -/
theorem C4_counterexample :
    (packRecord sampleRec ++ [0, 0, 0, 0]).length ≠ 148 ∧
    decodeRecord (packRecord sampleRec ++ [0, 0, 0, 0]) = some sampleRec ∧
    dumpRecords [packRecord sampleRec ++ [0, 0, 0, 0]] = [sampleRec] := by
  refine ⟨by decide, decodeRecord_prefix sampleRec [0, 0, 0, 0] (by decide), ?_⟩
  rw [dumpRecords, List.filterMap_cons,
    decodeRecord_prefix sampleRec [0, 0, 0, 0] (by decide)]
  rfl

/-- C4 amended: the decoder fails exactly on blocks shorter than the
canonical 148 bytes — producing no partial record, with the dump skipping
the block and continuing with the remaining records — while a block of at
least 148 bytes always decodes, namely from its 148-byte prefix: an encoded
valid record followed by trailing bytes decodes to exactly that record. -/
theorem C4_short_block_rejected (bs : List Nat) (hbs : bs.length < 148) :
    decodeRecord bs = none ∧
    (∀ rest : List (List Nat), dumpRecords (bs :: rest) = dumpRecords rest) ∧
    (∀ bs2 : List Nat, 148 ≤ bs2.length → decodeRecord bs2 ≠ none) ∧
    (∀ (r : SampleRecord) (extra : List Nat), ValidRecord r →
        decodeRecord (packRecord r ++ extra) = some r) := by
  have hd : decodeRecord bs = none := by
    rw [decodeRecord.eq_def, if_neg (by omega)]
  refine ⟨hd, fun rest => ?_, fun bs2 hb2 => ?_,
    fun r extra hv => decodeRecord_prefix r extra hv⟩
  · rw [dumpRecords, List.filterMap_cons, hd, dumpRecords]
  · rw [decodeRecord.eq_def, if_pos hb2]
    simp

set_option maxRecDepth 4000 in
theorem C4_short_block_rejected_witness :
    decodeRecord [0, 1, 2] = none ∧
    dumpRecords [[0, 1, 2], packRecord sampleRec] = dumpRecords [packRecord sampleRec] ∧
    decodeRecord (packRecord sampleRec ++ [9, 9]) = some sampleRec := by
  obtain ⟨h1, h2, -, h4⟩ := C4_short_block_rejected [0, 1, 2] (by decide)
  exact ⟨h1, h2 [packRecord sampleRec], h4 sampleRec [9, 9] (by decide)⟩

theorem pad_list_length (v : Option (List Nat)) (n fill : Nat) :
    (pad_list v n fill).length = n := by
  cases v with
  | none => simp [pad_list]
  | some v =>
      rw [pad_list]
      split
      · simp; omega
      · simp; omega

/-- Every block `add_sample` packs has the canonical 148-byte length. -/
theorem length_packed_sample (now : Nat) (a : SampleArgs) :
    (packRecord (sampleRecordOf now a)).length = 148 := by
  rw [length_packRecord, sampleRecordOf, fieldsOf]
  simp only [List.length_append, pad_list_length]

/-- C10: the encoded length is the constant 148 for every combination of
inputs at the `add_sample` interface — a missing channel list is replaced by
zeros, a short one padded with zeros, a long one truncated — so encoding
never fails, and every slot a push ever writes holds a 148-byte block (unused
slots hold the empty block they were initialized with). -/
theorem C10_constant_record_size (now : Nat) (N : Nat) (args : List SampleArgs)
    (_hN : 0 < N) :
    (∀ a : SampleArgs, (packRecord (sampleRecordOf now a)).length = 148) ∧
    (∀ n fill, pad_list none n fill = List.replicate n fill) ∧
    (∀ (v : List Nat) (n fill : Nat), v.length < n →
        pad_list (some v) n fill = v ++ List.replicate (n - v.length) fill) ∧
    (∀ (v : List Nat) (n fill : Nat), n ≤ v.length →
        pad_list (some v) n fill = v.take n) ∧
    (∀ s ∈ (pushAll (Buffer.init N) now args).buffer, s = [] ∨ s.length = 148) := by
  refine ⟨length_packed_sample now, fun n fill => rfl, ?_, ?_, ?_⟩
  · intro v n fill hvn
    rw [pad_list, if_neg (by omega)]
  · intro v n fill hnv
    rw [pad_list, if_pos hnv]
  · have hslots : ∀ (b : Buffer), (∀ s ∈ b.buffer, s = [] ∨ s.length = 148) →
        ∀ s ∈ (pushAll b now args).buffer, s = [] ∨ s.length = 148 := by
      induction args with
      | nil => exact fun b hb => hb
      | cons a args ih =>
          intro b hb
          refine ih _ ?_
          intro s hs
          rcases List.mem_or_eq_of_mem_set hs with h | h
          · exact hb s h
          · right; rw [h]; exact length_packed_sample now a
    refine hslots (Buffer.init N) ?_
    intro s hs
    exact Or.inl (List.eq_of_mem_replicate hs)

theorem C10_constant_record_size_witness :
    (packRecord (sampleRecordOf 0 { temperatures := some [1, 2], hk_voltages := some [1, 2, 3, 4, 5, 6, 7, 8] })).length = 148 ∧
    (∀ s ∈ (pushAll (Buffer.init 2) 0 [tsArgs 1, tsArgs 2, tsArgs 3]).buffer,
        s = [] ∨ s.length = 148) := by
  obtain ⟨h1, -, -, -, h5⟩ := C10_constant_record_size 0 2 [tsArgs 1, tsArgs 2, tsArgs 3] (by decide)
  exact ⟨h1 _, h5⟩

/-- The framed output splits into payload and checksum bytes. -/
theorem buffer_crc16_eq (l : List (List Nat)) (hl : l ≠ []) :
    buffer_crc16 l
      = some (l.flatten ++ [crc16 l.flatten 0xA001 0xFFFF % 256,
          crc16 l.flatten 0xA001 0xFFFF / 256 % 256]) := by
  rw [buffer_crc16, if_neg hl]
  rfl

/-- C5: framing a non-empty list of records concatenates them in order and
appends exactly the two little-endian bytes of the CRC-16 (reflected
polynomial `0xA001`, seed `0xFFFF`) of the concatenation; the empty list
frames to none; and the framer is a pure function of its input, hence
deterministic. -/
theorem C5_frame_layout (l : List (List Nat)) (hl : l ≠ []) :
    buffer_crc16 l
      = some (l.flatten ++ [crc16 l.flatten 0xA001 0xFFFF % 256,
          crc16 l.flatten 0xA001 0xFFFF / 256 % 256]) ∧
    crc16 l.flatten 0xA001 0xFFFF < 65536 ∧
    buffer_crc16 [] = none ∧
    ∀ l2 : List (List Nat), l2 = l → buffer_crc16 l2 = buffer_crc16 l := by
  refine ⟨buffer_crc16_eq l hl, ?_, rfl, fun l2 h => by rw [h]⟩
  have h : crc16 l.flatten 0xA001 0xFFFF
      = (l.flatten.foldl (crc16_byte 0xA001) 0xFFFF) &&& 0xFFFF := rfl
  rw [h]
  have h2 := Nat.and_le_right (n := l.flatten.foldl (crc16_byte 0xA001) 0xFFFF) (m := 0xFFFF)
  omega

theorem C5_frame_layout_witness :
    buffer_crc16 [[0], [7]]
      = some ([0, 7] ++ [crc16 [0, 7] 0xA001 0xFFFF % 256,
          crc16 [0, 7] 0xA001 0xFFFF / 256 % 256]) ∧
    buffer_crc16 [] = none := by
  obtain ⟨h1, -, h3, -⟩ := C5_frame_layout [[0], [7]] (by decide)
  exact ⟨by rw [h1]; decide, h3⟩

/-- C6 as the spec states it is false: the CRC-16 of the single byte `0x00`
with polynomial `0xA001` and seed `0xFFFF` is not `0xE085`. -/
theorem C6_counterexample : ¬ crc16 [0] 0xA001 0xFFFF = 0xE085 := by
  decide

/-- C6 amended: the CRC-16 (reflected polynomial `0xA001`, seed `0xFFFF`) of
the byte sequence `[0x00]` equals `0x40BF`, the standard CRC-16/MODBUS known
answer for a single zero byte. -/
theorem C6_crc_known_answer : crc16 [0] 0xA001 0xFFFF = 0x40BF := by
  decide

/-- The three calibration tables of `lib/calibration.py`, keyed by the
`cal-set` type names. -/
inductive CalGroup
  | temperature_offset
  | pressure_slope
  | pressure_offset
deriving DecidableEq, Repr

/-- A calibration parameter set: the values of `TEMP_OFFSETS`,
`PRESSURE_SLOPES` and `PRESSURE_OFFSETS`. -/
structure Calibration where
  TEMP_OFFSETS : List ℚ
  PRESSURE_SLOPES : List ℚ
  PRESSURE_OFFSETS : List ℚ
deriving DecidableEq, Repr

/-- `getattr(calibration, var_name)` for the three table names. -/
def Calibration.get (cal : Calibration) : CalGroup → List ℚ
  | .temperature_offset => cal.TEMP_OFFSETS
  | .pressure_slope => cal.PRESSURE_SLOPES
  | .pressure_offset => cal.PRESSURE_OFFSETS

/-- Replace one table of a calibration set. -/
def Calibration.setGroup (cal : Calibration) : CalGroup → List ℚ → Calibration
  | .temperature_offset, v => { cal with TEMP_OFFSETS := v }
  | .pressure_slope, v => { cal with PRESSURE_SLOPES := v }
  | .pressure_offset, v => { cal with PRESSURE_OFFSETS := v }

/-- The values defined by `default_calibration` in `src/lib/comms/cli.py`. -/
def default_calibration : Calibration where
  TEMP_OFFSETS := [0, 0, 0, 0]
  PRESSURE_SLOPES := [1, 1, 1, 1]
  PRESSURE_OFFSETS := [0, 0, 0, 0]

/-- The calibration state `cmd_cal_set` acts on: the in-memory module values
loaded at boot and the values the durable file `lib/calibration.py`
currently defines. -/
structure CalSystem where
  mem : Calibration
  disk : Calibration
deriving DecidableEq, Repr

/-- Outcome of a calibration edit command. -/
inductive CalResult
  | ok
  | invalidChannel
deriving DecidableEq, Repr

/-- `CLI.cmd_cal_set` with already-parsed arguments: it copies the in-memory
table, validates `0 ≤ ch < len(current)` and on failure prints
`Invalid channel` and returns with nothing changed; on success it sets the
copied entry and has `_update_cal` rewrite the durable file with the new
table (the in-memory module values stay as loaded until the reboot that
follows). -/
def cmd_cal_set (st : CalSystem) (group : CalGroup) (ch : Int) (value : ℚ) :
    CalSystem × CalResult :=
  let current := st.mem.get group
  if ch < 0 ∨ (current.length : Int) ≤ ch then (st, .invalidChannel)
  else ({ st with disk := st.disk.setGroup group (current.set ch.toNat value) }, .ok)

/-- C7: a calibration update addressed at `channel_index = group_size` fails
with the invalid-channel error and mutates neither the in-memory nor the
durable state, `channel_index = group_size - 1` succeeds, and in general the
command accepts exactly the indices `0 ≤ ch < group_size`. -/
theorem C7_channel_validation (st : CalSystem) (g : CalGroup) (v : ℚ)
    (hpos : 0 < (st.mem.get g).length) :
    cmd_cal_set st g ((st.mem.get g).length : Int) v = (st, .invalidChannel) ∧
    (cmd_cal_set st g (((st.mem.get g).length : Int) - 1) v).2 = .ok ∧
    (∀ ch : Int, (cmd_cal_set st g ch v).2 = .ok ↔
        0 ≤ ch ∧ ch < ((st.mem.get g).length : Int)) ∧
    (∀ ch : Int, (cmd_cal_set st g ch v).2 = .invalidChannel →
        (cmd_cal_set st g ch v).1 = st) := by
  refine ⟨?_, ?_, ?_, ?_⟩
  · rw [cmd_cal_set, if_pos (by omega)]
  · rw [cmd_cal_set, if_neg (by omega)]
  · intro ch
    rw [cmd_cal_set]
    split
    · rename_i hcond
      constructor
      · intro h
        exact CalResult.noConfusion h
      · intro h
        exact absurd hcond (by omega)
    · rename_i hcond
      constructor
      · intro h
        omega
      · intro h
        rfl
  · intro ch
    rw [cmd_cal_set]
    split
    · intro h
      rfl
    · intro h
      exact CalResult.noConfusion h

theorem C7_channel_validation_witness :
    cmd_cal_set ⟨default_calibration, default_calibration⟩ .temperature_offset 4 (5/2)
      = (⟨default_calibration, default_calibration⟩, .invalidChannel) ∧
    (cmd_cal_set ⟨default_calibration, default_calibration⟩ .temperature_offset 3 (5/2)).2
      = .ok := by
  obtain ⟨h1, h2, -, -⟩ := C7_channel_validation
    ⟨default_calibration, default_calibration⟩ .temperature_offset (5/2) (by decide)
  exact ⟨h1, h2⟩

/-- One primitive durable-storage event, as the operating system sees the
calibration rewrite: `open(path, "w")` truncates the file to zero length at
once, and the following `f.write` stores the full new text.  File contents
are byte lists. -/
inductive FileOp
  | truncate
  | write (content : List Nat)
deriving DecidableEq, Repr

/-- Observable file content after one event; a truncation discards the prior
content, a write replaces it wholesale. -/
def applyFileOp (_content : List Nat) : FileOp → List Nat
  | .truncate => []
  | .write s => s

/-- Observable file content after a sequence of events. -/
def runFileOps (content : List Nat) (ops : List FileOp) : List Nat :=
  ops.foldl applyFileOp content

/-- The durable-write pattern shared by `CLI._update_cal` and
`CLI.cmd_cal_reset`: both open `lib/calibration.py` with mode `"w"`
(truncating it in place) and then write the whole new text.  No temporary
file and no rename is involved. -/
def writeFileDirect (newContent : List Nat) : List FileOp :=
  [.truncate, .write newContent]

/-- All-or-nothing replacement: after every prefix of the event sequence the
observable file content is either the prior text or the new text. -/
def atomicReplace (old : List Nat) (ops : List FileOp) (newC : List Nat) : Prop :=
  ∀ k : Nat, runFileOps old (ops.take k) = old ∨ runFileOps old (ops.take k) = newC

/-- C8 as the spec states it is false: the calibration rewrite is not
all-or-nothing.  Replacing the one-byte file `[97]` by `[98]`, the state
after the truncation (one completed event) is the empty file, which is
neither the prior nor the new contents — a failure between the truncation
and the write loses the prior durable state. -/
theorem C8_counterexample : ¬ atomicReplace [97] (writeFileDirect [98]) [98] := by
  intro h
  rcases h 1 with h1 | h1 <;> exact absurd h1 (by decide)

/-- C8 amended: `_update_cal` and `cmd_cal_reset` rewrite the calibration
file in place — truncate, then write — rather than atomically: a completed
sequence leaves exactly the new contents, but the intermediate state after
the truncation is the empty file, so an interruption there loses the prior
durable contents (while the in-memory module values are untouched either
way). -/
theorem C8_in_place_rewrite (old newC : List Nat) :
    runFileOps old (writeFileDirect newC) = newC ∧
    runFileOps old ((writeFileDirect newC).take 1) = [] :=
  ⟨rfl, rfl⟩

/-- One INA238 power-monitor channel as the bus presents it: `present` is
whether the device address answers `i2c.scan()`; the four readings are what
the device would report when present. -/
structure INAChannel where
  present : Bool
  voltage : ℚ
  current : ℚ
  power : ℚ
  temperature : ℚ
deriving DecidableEq, Repr

/-- One MAX6634 housekeeping temperature channel. -/
structure MAXChannel where
  present : Bool
  temperature : ℚ
deriving DecidableEq, Repr

/-- `HousekeepingManager.read_ina238_data`: an absent sensor reads as four
zeros instead of raising. -/
def read_ina238_data (c : INAChannel) : ℚ × ℚ × ℚ × ℚ :=
  if c.present then (c.voltage, c.current, c.power, c.temperature) else (0, 0, 0, 0)

/-- `HousekeepingManager.read_housekeeping_temperature`: an absent sensor
reads as zero instead of raising. -/
def read_housekeeping_temperature (c : MAXChannel) : ℚ :=
  if c.present then c.temperature else 0

/-- The snapshot `CLI.cmd_self_test` consumes: the science read (`none` when
`read_sensors` raised), the housekeeping read (`none` when
`read_all_housekeeping_data` raised), and the buffer's size and capacity. -/
structure SelfTestInput where
  science : Option (List ℚ × List ℚ)
  housekeeping : Option (List INAChannel × List MAXChannel)
  bufferSize : Nat
  bufferCapacity : Nat
deriving DecidableEq, Repr

def countTrue (l : List Bool) : Nat :=
  l.count true

def countFalse (l : List Bool) : Nat :=
  l.count false

/-- The observable outcome of `CLI.cmd_self_test`: one pass flag per printed
channel line, the buffer check, and the printed aggregate counters. -/
structure SelfTestReport where
  tempPass : List Bool
  pressPass : List Bool
  inaPass : List Bool
  maxPass : List Bool
  bufferPass : Bool
  passed : Nat
  failed : Nat
deriving DecidableEq, Repr

/-- `CLI.cmd_self_test`: temperatures must lie in `(-100, 300)`, pressures in
`(-0.5, 5)`; each INA238 line passes when voltage is in `(0, 30)`, current in
`(-10, 20)`, power in `(0, 600)` and die temperature in `(-40, 125)`; each
MAX6634 line passes when its temperature is in `(-100, 150)`; a raised
science read adds 8 to the failure counter and a raised housekeeping read
adds 12, with no per-channel lines; the buffer check passes exactly when the
capacity is positive.  The command always returns a report and never
propagates a failure. -/
def cmd_self_test (inp : SelfTestInput) : SelfTestReport :=
  let sci :=
    match inp.science with
    | some (ts, ps) =>
        (ts.map fun t => decide (-100 < t ∧ t < 300),
         ps.map fun p => decide (-(1 / 2 : ℚ) < p ∧ p < 5), 0)
    | none => ([], [], 8)
  let hk :=
    match inp.housekeeping with
    | some (inas, maxs) =>
        (inas.map fun ch =>
          let r := read_ina238_data ch
          decide ((0 < r.1 ∧ r.1 < 30) ∧ (-10 < r.2.1 ∧ r.2.1 < 20) ∧
            (0 < r.2.2.1 ∧ r.2.2.1 < 600) ∧ (-40 < r.2.2.2 ∧ r.2.2.2 < 125)),
         maxs.map fun ch =>
          decide (-100 < read_housekeeping_temperature ch ∧
            read_housekeeping_temperature ch < 150), 0)
    | none => ([], [], 12)
  let bufferPass := decide (0 < inp.bufferCapacity)
  { tempPass := sci.1
    pressPass := sci.2.1
    inaPass := hk.1
    maxPass := hk.2.1
    bufferPass := bufferPass
    passed := countTrue sci.1 + countTrue sci.2.1 + countTrue hk.1 + countTrue hk.2.1
      + (if bufferPass then 1 else 0)
    failed := countFalse sci.1 + countFalse sci.2.1 + sci.2.2
      + countFalse hk.1 + countFalse hk.2.1 + hk.2.2
      + (if bufferPass then 0 else 1) }

/-- A snapshot in which the whole housekeeping group reports absent. -/
def hkAbsentInput : SelfTestInput where
  science := some ([20, 20, 20, 20], [1, 1, 1, 1])
  housekeeping := some
    (List.replicate 5 ⟨false, 12, 1, 12, 25⟩, List.replicate 5 ⟨false, 25⟩)
  bufferSize := 0
  bufferCapacity := 120

/-- C9 as the spec states it is false: with the whole housekeeping group
absent, the MAX6634 lines read the zero substitute, which lies inside the
admissible band `(-100, 150)`, so all five are marked as passing — not every
channel of the absent group is marked failed. -/
theorem C9_counterexample :
    (∀ ch ∈ (hkAbsentInput.housekeeping.getD ([], [])).1, ch.present = false) ∧
    (∀ ch ∈ (hkAbsentInput.housekeeping.getD ([], [])).2, ch.present = false) ∧
    (cmd_self_test hkAbsentInput).maxPass = List.replicate 5 true ∧
    ¬ (∀ flag ∈ (cmd_self_test hkAbsentInput).maxPass, flag = false) := by
  decide

theorem getD_map {α β : Type} (f : α → β) (l : List α) (i : Nat) (da : α) (db : β)
    (h : i < l.length) : (l.map f).getD i db = f (l.getD i da) := by
  induction l generalizing i with
  | nil => simp at h
  | cons x l ih =>
      cases i with
      | zero => rfl
      | succ n =>
          simp only [List.map_cons, List.getD_cons_succ]
          exact ih n (by simpa using h)

theorem report_counts (l1 l2 l3 l4 : List Bool) (x8 x12 : Nat) (bp : Bool) :
    (countTrue l1 + countTrue l2 + countTrue l3 + countTrue l4 + (if bp then 1 else 0))
      + (countFalse l1 + countFalse l2 + x8 + countFalse l3 + countFalse l4 + x12
          + (if bp then 0 else 1))
    = l1.length + l2.length + x8 + l3.length + l4.length + x12 + 1 := by
  have e1 := List.count_true_add_count_false l1
  have e2 := List.count_true_add_count_false l2
  have e3 := List.count_true_add_count_false l3
  have e4 := List.count_true_add_count_false l4
  rw [countTrue, countTrue, countTrue, countTrue,
    countFalse, countFalse, countFalse, countFalse]
  cases bp <;> simp <;> omega

/-- C9 amended: the self-test always yields a complete report — one pass
flag per housekeeping channel and aggregate counters accounting for every
check — and never propagates a failure; an absent INA238 channel is marked
failed (its zero substitute falls outside the voltage and power bands), but
an absent MAX6634 channel reads the zero substitute, which lies inside the
admissible band, and is marked as passing; the buffer check fails exactly
when the capacity is not positive. -/
theorem C9_selftest_report (inp : SelfTestInput)
    (inas : List INAChannel) (maxs : List MAXChannel)
    (hhk : inp.housekeeping = some (inas, maxs)) :
    (cmd_self_test inp).inaPass.length = inas.length ∧
    (cmd_self_test inp).maxPass.length = maxs.length ∧
    (∀ i : Nat, i < inas.length → (inas.getD i ⟨true, 0, 0, 0, 0⟩).present = false →
        (cmd_self_test inp).inaPass.getD i true = false) ∧
    (∀ i : Nat, i < maxs.length → (maxs.getD i ⟨true, 0⟩).present = false →
        (cmd_self_test inp).maxPass.getD i false = true) ∧
    ((cmd_self_test inp).bufferPass = false ↔ inp.bufferCapacity = 0) ∧
    (cmd_self_test inp).passed + (cmd_self_test inp).failed
      = (cmd_self_test inp).tempPass.length + (cmd_self_test inp).pressPass.length
        + (match inp.science with | none => 8 | some _ => 0)
        + inas.length + maxs.length + 1 := by
  obtain ⟨sci, hk, bs, bc⟩ := inp
  simp only at hhk
  subst hhk
  have hbuf : (cmd_self_test ⟨sci, some (inas, maxs), bs, bc⟩).bufferPass
      = decide (0 < bc) := by
    rcases sci with - | ⟨ts, ps⟩ <;> rfl
  constructor
  · rcases sci with - | ⟨ts, ps⟩ <;> simp [cmd_self_test]
  constructor
  · rcases sci with - | ⟨ts, ps⟩ <;> simp [cmd_self_test]
  constructor
  · intro i hi hpres
    have hmap : (cmd_self_test ⟨sci, some (inas, maxs), bs, bc⟩).inaPass
        = inas.map (fun ch =>
            let r := read_ina238_data ch
            decide ((0 < r.1 ∧ r.1 < 30) ∧ (-10 < r.2.1 ∧ r.2.1 < 20) ∧
              (0 < r.2.2.1 ∧ r.2.2.1 < 600) ∧ (-40 < r.2.2.2 ∧ r.2.2.2 < 125))) := by
      rcases sci with - | ⟨ts, ps⟩ <;> rfl
    rw [hmap, getD_map _ _ _ ⟨true, 0, 0, 0, 0⟩ _ hi]
    rw [read_ina238_data, if_neg (by rw [hpres]; exact Bool.false_ne_true)]
    decide
  constructor
  · intro i hi hpres
    have hmap : (cmd_self_test ⟨sci, some (inas, maxs), bs, bc⟩).maxPass
        = maxs.map (fun ch =>
            decide (-100 < read_housekeeping_temperature ch ∧
              read_housekeeping_temperature ch < 150)) := by
      rcases sci with - | ⟨ts, ps⟩ <;> rfl
    rw [hmap, getD_map _ _ _ ⟨true, 0⟩ _ hi]
    rw [read_housekeeping_temperature, if_neg (by rw [hpres]; exact Bool.false_ne_true)]
    decide
  constructor
  · rw [hbuf]
    rcases Nat.eq_zero_or_pos bc with h0 | hpos
    · simp [h0]
    · simp [Nat.pos_iff_ne_zero.mp hpos, hpos]
  · rcases sci with - | ⟨ts, ps⟩
    · simp only [cmd_self_test]
      rw [report_counts]
      simp only [List.length_nil, List.length_map]
    · simp only [cmd_self_test]
      rw [report_counts]
      simp only [List.length_map]

theorem C9_selftest_report_witness :
    (cmd_self_test hkAbsentInput).inaPass.length = 5 ∧
    (cmd_self_test hkAbsentInput).inaPass.getD 0 true = false ∧
    (cmd_self_test hkAbsentInput).passed + (cmd_self_test hkAbsentInput).failed = 19 := by
  obtain ⟨h1, -, h3, -, -, h6⟩ := C9_selftest_report hkAbsentInput
    (List.replicate 5 ⟨false, 12, 1, 12, 25⟩) (List.replicate 5 ⟨false, 25⟩) rfl
  refine ⟨?_, ?_, ?_⟩
  · rw [h1]; decide
  · exact h3 0 (by decide) (by decide)
  · rw [h6]; decide
end HedgeSci
